import Mathlib

set_option maxRecDepth 8000

/-!
Verification of the aiblackbox LLM audit proxy (Go) against its
natural-language specification.

The development shallowly embeds the relevant Go source files:

* `internal/audit/worker.go` — the audit worker (hash chain, sequence
  dispatch, pending reorder buffer), its `computeHash` and
  `computeGenesisHash`;
* the verifier binary (`calculateHash`, chain replay);
* `internal/proxy/response_capturer.go` — the bounded mirror of
  `ResponseCapturer.Write`, `Body`, and the one-shot `finalize` callback;
* `internal/proxy/stream_reconstruct.go` — `parseSSEChunks` and the
  OpenAI delta consolidation `reconstructOpenAIStream`;
* the proxy handler's `maskSensitiveValue` and sequence-id reservation
  order; and `internal/media`'s `ExtractFromBody` guard.

Go machine integers are modelled as `Nat` with explicit reduction
modulo `2 ^ 32` where the source wraps; Go byte strings are modelled as
`List Nat` (byte values) or, where only whole-string operations occur, as
Lean `String`.  SHA-256 is implemented executably below (FIPS 180-4) so
hash values can be computed inside proofs.
-/

namespace AIBlackbox

/-! ## Bytes and UTF-8

Go hashes `[]byte(s)` of strings; we model that byte sequence by UTF-8
encoding the characters. -/

/-- UTF-8 encoding of a single Unicode code point (as `Nat`). -/
def utf8EncodeChar (c : Nat) : List Nat :=
  if c < 128 then [c]
  else if c < 2048 then [192 + c / 64, 128 + c % 64]
  else if c < 65536 then [224 + c / 4096, 128 + (c / 64) % 64, 128 + c % 64]
  else [240 + c / 262144, 128 + (c / 4096) % 64, 128 + (c / 64) % 64, 128 + c % 64]

/-- The bytes of a Go string (`[]byte(s)` for a valid UTF-8 string). -/
def strBytes (s : String) : List Nat :=
  s.data.flatMap (fun c => utf8EncodeChar c.toNat)

/-! ## SHA-256 (FIPS 180-4), executable over byte lists

Words are `Nat` values kept below `2 ^ 32`; `w32` is the wrap. -/

/-- Reduce to a 32-bit word. -/
def w32 (n : Nat) : Nat := n % 4294967296

/-- 32-bit right-rotation. -/
def rotr32 (n x : Nat) : Nat := w32 ((x >>> n) + ((x % (2 ^ n)) <<< (32 - n)))

/-- SHA-256 `Ch`. -/
def shaCh (x y z : Nat) : Nat := (x &&& y) ^^^ ((x ^^^ 4294967295) &&& z)

/-- SHA-256 `Maj`. -/
def shaMaj (x y z : Nat) : Nat := (x &&& y) ^^^ (x &&& z) ^^^ (y &&& z)

/-- SHA-256 `Σ₀`. -/
def bigSigma0 (x : Nat) : Nat := rotr32 2 x ^^^ rotr32 13 x ^^^ rotr32 22 x

/-- SHA-256 `Σ₁`. -/
def bigSigma1 (x : Nat) : Nat := rotr32 6 x ^^^ rotr32 11 x ^^^ rotr32 25 x

/-- SHA-256 `σ₀`. -/
def smallSigma0 (x : Nat) : Nat := rotr32 7 x ^^^ rotr32 18 x ^^^ (x >>> 3)

/-- SHA-256 `σ₁`. -/
def smallSigma1 (x : Nat) : Nat := rotr32 17 x ^^^ rotr32 19 x ^^^ (x >>> 10)

/-- The 64 SHA-256 round constants. -/
def shaK : List Nat :=
  [1116352408, 1899447441, 3049323471, 3921009573, 961987163, 1508970993,
   2453635748, 2870763221, 3624381080, 310598401, 607225278, 1426881987,
   1925078388, 2162078206, 2614888103, 3248222580, 3835390401, 4022224774,
   264347078, 604807628, 770255983, 1249150122, 1555081692, 1996064986,
   2554220882, 2821834349, 2952996808, 3210313671, 3336571891, 3584528711,
   113926993, 338241895, 666307205, 773529912, 1294757372, 1396182291,
   1695183700, 1986661051, 2177026350, 2456956037, 2730485921, 2820302411,
   3259730800, 3345764771, 3516065817, 3600352804, 4094571909, 275423344,
   430227734, 506948616, 659060556, 883997877, 958139571, 1322822218,
   1537002063, 1747873779, 1955562222, 2024104815, 2227730452, 2361852424,
   2428436474, 2756734187, 3204031479, 3329325298]

/-- The initial SHA-256 hash state `H₀ … H₇`. -/
def shaH0 : List Nat :=
  [1779033703, 3144134277, 1013904242, 2773480762,
   1359893119, 2600822924, 528734635, 1541459225]

/-- Big-endian 8-byte rendering of a 64-bit value. -/
def be64 (n : Nat) : List Nat :=
  [(n >>> 56) % 256, (n >>> 48) % 256, (n >>> 40) % 256, (n >>> 32) % 256,
   (n >>> 24) % 256, (n >>> 16) % 256, (n >>> 8) % 256, n % 256]

/-- SHA-256 message padding: `0x80`, zeros to 56 mod 64, then the bit
length big-endian. -/
def shaPad (msg : List Nat) : List Nat :=
  msg ++ (128 :: List.replicate ((119 - msg.length % 64) % 64) 0) ++ be64 (msg.length * 8)

/-- Split a byte list into 64-byte blocks (fuel keeps the recursion
structural so that proofs can evaluate it). -/
def toBlocksFuel : Nat → List Nat → List (List Nat)
  | 0, _ => []
  | _, [] => []
  | fuel + 1, l => l.take 64 :: toBlocksFuel fuel (l.drop 64)

/-- Split a byte list into 64-byte blocks. -/
def toBlocks (l : List Nat) : List (List Nat) := toBlocksFuel l.length l

/-- Big-endian 32-bit words of a 64-byte block. -/
def blockWords (b : List Nat) : List Nat :=
  match b with
  | b0 :: b1 :: b2 :: b3 :: rest =>
      (((b0 * 256 + b1) * 256 + b2) * 256 + b3) :: blockWords rest
  | _ => []

/-- Extend 16 message-schedule words to 64. -/
def shaSchedule (ws : Array Nat) (rounds : Nat) : Array Nat :=
  match rounds with
  | 0 => ws
  | r + 1 =>
      let i := ws.size
      let wNew := w32 (smallSigma1 (ws.getD (i - 2) 0) + ws.getD (i - 7) 0 +
        smallSigma0 (ws.getD (i - 15) 0) + ws.getD (i - 16) 0)
      shaSchedule (ws.push wNew) r

/-- One SHA-256 compression round. -/
def shaRound (st : Nat × Nat × Nat × Nat × Nat × Nat × Nat × Nat) (kw : Nat × Nat) :
    Nat × Nat × Nat × Nat × Nat × Nat × Nat × Nat :=
  match st, kw with
  | (a, b, c, d, e, f, g, h), (kt, wt) =>
      let t1 := w32 (h + bigSigma1 e + shaCh e f g + kt + wt)
      let t2 := w32 (bigSigma0 a + shaMaj a b c)
      (w32 (t1 + t2), a, b, c, w32 (d + t1), e, f, g)

/-- Compress one 64-byte block into the running hash state. -/
def shaCompress (hs : List Nat) (block : List Nat) : List Nat :=
  let ws := shaSchedule (blockWords block).toArray 48
  match hs with
  | [h0, h1, h2, h3, h4, h5, h6, h7] =>
      let fin := (shaK.zip ws.toList).foldl shaRound (h0, h1, h2, h3, h4, h5, h6, h7)
      match fin with
      | (a, b, c, d, e, f, g, h) =>
          [w32 (h0 + a), w32 (h1 + b), w32 (h2 + c), w32 (h3 + d),
           w32 (h4 + e), w32 (h5 + f), w32 (h6 + g), w32 (h7 + h)]
  | _ => hs

/-- SHA-256 digest of a byte list, as 32 bytes. -/
def sha256 (msg : List Nat) : List Nat :=
  ((toBlocks (shaPad msg)).foldl shaCompress shaH0).flatMap
    (fun wv => [(wv >>> 24) % 256, (wv >>> 16) % 256, (wv >>> 8) % 256, wv % 256])

/-- Lowercase hex digit. -/
def hexDigit (n : Nat) : Char :=
  if n < 10 then Char.ofNat (48 + n) else Char.ofNat (87 + n)

/-- Lowercase hex encoding of a byte list (Go `hex.EncodeToString`). -/
def hexEncode (bs : List Nat) : String :=
  String.mk (bs.flatMap (fun b => [hexDigit (b / 16), hexDigit (b % 16)]))

/-- SHA-256 digest as a 64-character lowercase-hex string. -/
def sha256Hex (msg : List Nat) : String := hexEncode (sha256 msg)

/-- FIPS 180-4 test vector: the digest of the empty message. -/
theorem sha256Hex_nil :
    sha256Hex [] = "e3b0c44298fc1c149afbf4c8996fb92427ae41e4649b934ca495991b7852b855" := by
  decide

/-! ## Data model (`internal/models`)

`AuditEntry` and its parts, from the Go `models` package.  The Go
`time.Time` timestamp is modelled by the string the worker feeds to the
hash — its RFC3339Nano rendering, which is also the textual form the
verifier reads back from the JSON line — since no claim depends on the
calendar arithmetic behind that rendering.  Go `map[string][]string`
headers are association lists; Go `int`/`int64` are `Int`. -/

/-- `models.FunctionCall`. -/
structure FunctionCall where
  name : String := ""
  arguments : String := ""
  argumentsHash : String := ""
deriving DecidableEq, Repr

/-- `models.ToolCallInfo` (the verifier reads the same shape). -/
structure ToolCallInfo where
  id : String := ""
  type : String := ""
  function : FunctionCall := {}
deriving DecidableEq, Repr

/-- `models.ToolResultInfo`. -/
structure ToolResultInfo where
  toolCallID : String := ""
  content : String := ""
  contentHash : String := ""
  isError : Bool := false
  errorMessage : String := ""
deriving DecidableEq, Repr

/-- `models.TraceContext` (`SpanType` is a Go string type). -/
structure TraceContext where
  traceID : String := ""
  spanID : String := ""
  parentSpanID : String := ""
  spanType : String := ""
  spanName : String := ""
  toolCall : Option ToolCallInfo := none
  toolResult : Option ToolResultInfo := none
  attributes : List (String × String) := []
deriving DecidableEq, Repr

/-- `models.MediaReference`. -/
structure MediaReference where
  type : String := ""
  filePath : String := ""
  sha256 : String := ""
  sizeBytes : Int := 0
  placeholder : String := ""
deriving DecidableEq, Repr

/-- `models.StreamingMetadata` (times in nanoseconds). -/
structure StreamingMetadata where
  chunksReceived : Nat := 0
  reconstructedFromStream : Bool := false
  firstChunkTime : Int := 0
  lastChunkTime : Int := 0
deriving DecidableEq, Repr

/-- `models.RequestDetails`. -/
structure RequestDetails where
  method : String := ""
  path : String := ""
  headers : List (String × List String) := []
  body : String := ""
  contentLength : Int := 0
  mediaReferences : List MediaReference := []
deriving DecidableEq, Repr

/-- `models.ResponseDetails`. -/
structure ResponseDetails where
  statusCode : Int := 0
  headers : List (String × List String) := []
  body : String := ""
  contentLength : Int := 0
  duration : Int := 0
  isStreaming : Bool := false
  error : String := ""
  isComplete : Bool := false
  truncated : Bool := false
  truncatedAtBytes : Int := 0
  mediaReferences : List MediaReference := []
  streamingMetadata : Option StreamingMetadata := none
deriving DecidableEq, Repr

/-- `models.AuditEntry`.  `timestamp` is the RFC3339Nano rendering of
the Go `time.Time` (see the section comment). -/
structure AuditEntry where
  timestamp : String := ""
  endpoint : String := ""
  request : RequestDetails := {}
  response : ResponseDetails := {}
  sequenceID : Nat := 0
  prevHash : String := ""
  hash : String := ""
  trace : Option TraceContext := none
deriving DecidableEq, Repr

/-- Go `strconv.FormatBool` (and the verifier's literal `"true"`/`"false"`
branches). -/
def goFormatBool (b : Bool) : String := if b then "true" else "false"

/-! ## Hash chain kernel

`Worker.computeHash` (internal/audit/worker.go) and the verifier's
`calculateHash` (cmd verifier `main.go`).  Each `h.Write` of the Go code
appends bytes to the digested stream, so the digest is SHA-256 of the
concatenation.  `strconv.Itoa` and `fmt.Fprintf "%d"` both render an
`Int` the way `toString` does. -/

/-- `Worker.computeHash` from `internal/audit/worker.go` lines 156–170:
hashes timestamp, endpoint, request body, response body, status code,
error, is_complete, prev_hash — and nothing else (no trace fields). -/
def Worker.computeHash (e : AuditEntry) : String :=
  sha256Hex (strBytes e.timestamp ++ strBytes e.endpoint ++
    strBytes e.request.body ++ strBytes e.response.body ++
    strBytes (toString e.response.statusCode) ++ strBytes e.response.error ++
    strBytes (goFormatBool e.response.isComplete) ++ strBytes e.prevHash)

/-- The trace block the verifier appends to the digested stream when
`entry.Trace != nil` (verifier `calculateHash` lines 185–210). -/
def traceHashBytes : Option TraceContext → List Nat
  | none => []
  | some t =>
      strBytes t.traceID ++ strBytes t.spanID ++ strBytes t.parentSpanID ++
      strBytes t.spanType ++ strBytes t.spanName ++
      (match t.toolCall with
       | none => []
       | some tc => strBytes tc.id ++ strBytes tc.type ++
           strBytes tc.function.name ++ strBytes tc.function.argumentsHash) ++
      (match t.toolResult with
       | none => []
       | some tr => strBytes tr.toolCallID ++ strBytes tr.contentHash ++
           strBytes (goFormatBool tr.isError))

/-- The verifier's `calculateHash` (verifier `main.go` lines 168–214):
same prefix as the worker, then the trace block when a trace is present,
then `prev_hash`. -/
def calculateHash (e : AuditEntry) : String :=
  sha256Hex (strBytes e.timestamp ++ strBytes e.endpoint ++
    strBytes e.request.body ++ strBytes e.response.body ++
    strBytes (toString e.response.statusCode) ++ strBytes e.response.error ++
    strBytes (goFormatBool e.response.isComplete) ++ traceHashBytes e.trace ++
    strBytes e.prevHash)

/-- `computeGenesisHash` from `internal/audit/worker.go` lines 173–177:
`SHA-256("genesis:" || seed)`, lowercase hex. -/
def computeGenesisHash (seed : String) : String :=
  sha256Hex (strBytes ("genesis:" ++ seed))

/-- On an entry with no trace context the verifier's recomputation and
the worker's hash do agree byte for byte (the divergence of claim C1 is
confined to trace-bearing entries). -/
theorem calculateHash_eq_computeHash_of_no_trace (e : AuditEntry) (h : e.trace = none) :
    calculateHash e = Worker.computeHash e := by
  unfold calculateHash Worker.computeHash
  rw [h]
  simp [traceHashBytes]

/-- The genesis hash of the test suite's seed, computed concretely. -/
theorem computeGenesisHash_test_seed :
    computeGenesisHash "test-seed" =
      "24ecef2ee7a33415e02a58cf19861e6d428c2af287e2a5224f6f6f3083ef6d57" := by
  decide

/-! ## Audit worker state machine (`internal/audit/worker.go`)

The worker goroutine's private state and its `run` loop, as a state
machine over received entries.  The `pendingEntries` map is an
association list (uniqueness of keys is maintained by overwriting
insertion); `writeOk` abstracts `storage.Write`'s success (`true` on
every entry models a journal whose writes all succeed). -/

/-- The worker's mutable state: `expectedSeq`, `pendingEntries`,
`prevHash`, plus the journal that successful `storage.Write` calls have
built. -/
structure WorkerState where
  expectedSeq : Nat
  pending : List (Nat × AuditEntry)
  prevHash : String
  journal : List AuditEntry
deriving DecidableEq, Repr

/-- The state `NewWorker` starts from: `expectedSeq = 0`, empty pending
map, `prevHash = computeGenesisHash seed`, empty journal. -/
def initWorker (seed : String) : WorkerState :=
  { expectedSeq := 0, pending := [], prevHash := computeGenesisHash seed, journal := [] }

/-- Map lookup `pendingEntries[k]`. -/
def lookupSeq (k : Nat) : List (Nat × AuditEntry) → Option AuditEntry
  | [] => none
  | (k2, e) :: rest => if k2 = k then some e else lookupSeq k rest

/-- Map removal `delete(pendingEntries, k)`. -/
def eraseSeq (k : Nat) (l : List (Nat × AuditEntry)) : List (Nat × AuditEntry) :=
  l.filter (fun p => p.1 != k)

/-- Map insertion `pendingEntries[k] = e` (overwrites). -/
def setSeq (k : Nat) (e : AuditEntry) (l : List (Nat × AuditEntry)) :
    List (Nat × AuditEntry) :=
  (k, e) :: eraseSeq k l

/-- `Worker.processEntry` (worker.go lines 135–152): set the entry's
`prev_hash` from the worker, compute its `hash`, write it; only a
successful write appends to the journal and advances the worker's
`prevHash`. -/
def processEntry (writeOk : AuditEntry → Bool) (s : WorkerState) (e : AuditEntry) :
    WorkerState :=
  let e1 := { e with prevHash := s.prevHash }
  let e2 := { e1 with hash := Worker.computeHash e1 }
  if writeOk e2 then
    { s with journal := s.journal ++ [e2], prevHash := e2.hash }
  else
    s

/-- The `run` loop's drain of contiguous successors (worker.go lines
82–90): while `pendingEntries[expectedSeq]` exists, process it, delete
it, increment `expectedSeq`.  `fuel` bounds the iteration; any fuel at
least `pending.length` is enough (`drainPending_lookup_none`). -/
def drainPending (writeOk : AuditEntry → Bool) : Nat → WorkerState → WorkerState
  | 0, s => s
  | fuel + 1, s =>
      match lookupSeq s.expectedSeq s.pending with
      | some e =>
          drainPending writeOk fuel
            { processEntry writeOk s e with
              pending := eraseSeq s.expectedSeq s.pending,
              expectedSeq := s.expectedSeq + 1 }
      | none => s

/-- One iteration of `Worker.run`'s receive loop (worker.go lines
72–110): dispatch on the received entry's `sequence_id`. -/
def handleEntry (writeOk : AuditEntry → Bool) (maxPending : Nat) (s : WorkerState)
    (e : AuditEntry) : WorkerState :=
  if e.sequenceID = s.expectedSeq then
    drainPending writeOk s.pending.length
      { processEntry writeOk s e with expectedSeq := s.expectedSeq + 1 }
  else
    if maxPending ≤ s.pending.length then
      { processEntry writeOk s e with expectedSeq := e.sequenceID + 1 }
    else
      { s with pending := setSeq e.sequenceID e s.pending }

/-- The receive loop over a whole arrival sequence. -/
def runWorker (writeOk : AuditEntry → Bool) (maxPending : Nat) (s : WorkerState)
    (es : List AuditEntry) : WorkerState :=
  es.foldl (handleEntry writeOk maxPending) s

/-- The shutdown drain (worker.go lines 113–125): process every leftover
pending entry (Go iterates the map in arbitrary order; the list order
stands in for it — every lemma proved about this drain holds for any
order, being consequences of per-`processEntry` invariants), then clear
the map. -/
def shutdownDrain (writeOk : AuditEntry → Bool) (s : WorkerState) : WorkerState :=
  { s.pending.foldl (fun st p => processEntry writeOk st p.2) s with pending := [] }

/-- A full worker life: start from the genesis state, receive `es`, shut
down. -/
def runWorkerShutdown (writeOk : AuditEntry → Bool) (maxPending : Nat) (seed : String)
    (es : List AuditEntry) : WorkerState :=
  shutdownDrain writeOk (runWorker writeOk maxPending (initWorker seed) es)

/-! ## Chain continuity invariant -/

/-- Adjacent journal lines are hash-linked. -/
def Chained (l : List AuditEntry) : Prop :=
  List.Chain' (fun a b => b.prevHash = a.hash) l

/-- The worker invariant behind chain continuity: the journal is
hash-linked, its first line points at the genesis hash `g`, and the
worker's `prevHash` always equals the hash of the last written line (or
`g` when nothing has been written). -/
def ChainInv (g : String) (s : WorkerState) : Prop :=
  Chained s.journal ∧
  (∀ e, s.journal.head? = some e → e.prevHash = g) ∧
  (∀ e, s.journal.getLast? = some e → s.prevHash = e.hash) ∧
  (s.journal = [] → s.prevHash = g)

theorem chainInv_processEntry (writeOk : AuditEntry → Bool) (g : String)
    (s : WorkerState) (e : AuditEntry) (h : ChainInv g s) :
    ChainInv g (processEntry writeOk s e) := by
  obtain ⟨hchain, hhead, hlast, hnil⟩ := h
  unfold processEntry
  dsimp only
  split
  · constructor
    · unfold Chained at hchain ⊢
      rw [List.chain'_append]
      refine ⟨hchain, List.chain'_singleton _, ?_⟩
      intro x hx y hy
      simp only [List.head?_cons, Option.mem_def, Option.some.injEq] at hy
      subst hy
      simpa using hlast x (Option.mem_def.mp hx)
    · refine ⟨?_, ?_, ?_⟩
      · intro q hq
        cases hj : s.journal with
        | nil => simp [hj] at hq; simp [← hq, hnil hj]
        | cons a t =>
            rw [hj] at hq
            simp only [List.cons_append, List.head?_cons, Option.some.injEq] at hq
            exact hhead q (by simp [hj, ← hq])
      · intro q hq
        rw [List.getLast?_concat] at hq
        simp at hq
        simp [← hq]
      · intro hq
        exact absurd hq (by simp)
  · exact ⟨hchain, hhead, hlast, hnil⟩

theorem chainInv_drainPending (writeOk : AuditEntry → Bool) (g : String) :
    ∀ (fuel : Nat) (s : WorkerState), ChainInv g s →
      ChainInv g (drainPending writeOk fuel s) := by
  intro fuel
  induction fuel with
  | zero => intro s h; exact h
  | succ n ih =>
      intro s h
      unfold drainPending
      cases hl : lookupSeq s.expectedSeq s.pending with
      | none => exact h
      | some e =>
          apply ih
          have := chainInv_processEntry writeOk g s e h
          exact ⟨this.1, this.2.1, this.2.2.1, this.2.2.2⟩

theorem chainInv_handleEntry (writeOk : AuditEntry → Bool) (maxPending : Nat)
    (g : String) (s : WorkerState) (e : AuditEntry) (h : ChainInv g s) :
    ChainInv g (handleEntry writeOk maxPending s e) := by
  unfold handleEntry
  split
  · apply chainInv_drainPending
    have := chainInv_processEntry writeOk g s e h
    exact ⟨this.1, this.2.1, this.2.2.1, this.2.2.2⟩
  · split
    · have := chainInv_processEntry writeOk g s e h
      exact ⟨this.1, this.2.1, this.2.2.1, this.2.2.2⟩
    · exact ⟨h.1, h.2.1, h.2.2.1, h.2.2.2⟩

theorem chainInv_runWorker (writeOk : AuditEntry → Bool) (maxPending : Nat)
    (g : String) (es : List AuditEntry) :
    ∀ (s : WorkerState), ChainInv g s →
      ChainInv g (runWorker writeOk maxPending s es) := by
  induction es with
  | nil => intro s h; exact h
  | cons e t ih =>
      intro s h
      exact ih _ (chainInv_handleEntry writeOk maxPending g s e h)

theorem chainInv_shutdownDrain (writeOk : AuditEntry → Bool) (g : String)
    (s : WorkerState) (h : ChainInv g s) : ChainInv g (shutdownDrain writeOk s) := by
  unfold shutdownDrain
  have main : ∀ (l : List (Nat × AuditEntry)) (st : WorkerState), ChainInv g st →
      ChainInv g (l.foldl (fun st p => processEntry writeOk st p.2) st) := by
    intro l
    induction l with
    | nil => intro st h2; exact h2
    | cons p t ih => intro st h2; exact ih _ (chainInv_processEntry writeOk g st p.2 h2)
  have := main s.pending s h
  exact ⟨this.1, this.2.1, this.2.2.1, by intro _; exact this.2.2.2 (by assumption)⟩

theorem chainInv_init (seed : String) : ChainInv (computeGenesisHash seed) (initWorker seed) := by
  refine ⟨List.chain'_nil, ?_, ?_, fun _ => rfl⟩ <;> intro q hq <;> simp [initWorker] at hq

/-- Claim C2: assuming every journal write succeeds, every adjacent pair
of journal lines the worker produces (receive loop and shutdown drain
included) satisfies `prev_hash = previous line's hash`, the first line's
`prev_hash` is the genesis hash, and the genesis hash is the
lowercase-hex SHA-256 of `"genesis:" ++ seed`. -/
theorem C2_chain_continuity (seed : String) (maxPending : Nat) (es : List AuditEntry) :
    List.Chain' (fun a b => b.prevHash = a.hash)
      (runWorkerShutdown (fun _ => true) maxPending seed es).journal ∧
    (∀ e, (runWorkerShutdown (fun _ => true) maxPending seed es).journal.head? = some e →
      e.prevHash = computeGenesisHash seed) ∧
    computeGenesisHash seed = sha256Hex (strBytes ("genesis:" ++ seed)) := by
  have h := chainInv_shutdownDrain (fun _ => true) (computeGenesisHash seed) _
    (chainInv_runWorker (fun _ => true) maxPending (computeGenesisHash seed) es
      (initWorker seed) (chainInv_init seed))
  exact ⟨h.1, h.2.1, rfl⟩

/-! ## Claim C1: worker hash vs verifier hash -/

/-- An entry the proxy can produce: a trace context is attached and its
`trace_id` is non-empty (the handler always attaches one with a
non-empty, possibly auto-generated, `trace_id`).  All other fields are
Go zero values. -/
def traceDivergenceEntry : AuditEntry :=
  { trace := some { traceID := "a" } }

/-- Claim C1 (the code bug, exhibited): on an entry carrying a trace
context, the worker's stored hash (`Worker.computeHash`, which digests
no trace field) differs from the verifier's recomputation
(`calculateHash`, which digests the trace fields), so the verifier
rejects a journal the worker genuinely wrote: the two functions are not
byte-for-byte the same, contradicting the §4.1 contract. -/
theorem C1_worker_verifier_hash_mismatch :
    Worker.computeHash traceDivergenceEntry ≠ calculateHash traceDivergenceEntry := by
  decide

/-! ## Claim C3: the dispatch behavior of the receive loop -/

/-- The audited payload of an entry: every field except the two the
worker itself assigns (`prev_hash`, `hash`). -/
def AuditEntry.core (e : AuditEntry) :
    Nat × String × String × RequestDetails × ResponseDetails × Option TraceContext :=
  (e.sequenceID, e.timestamp, e.endpoint, e.request, e.response, e.trace)

theorem processEntry_pending (writeOk : AuditEntry → Bool) (s : WorkerState)
    (e : AuditEntry) : (processEntry writeOk s e).pending = s.pending := by
  unfold processEntry; dsimp only; split <;> rfl

theorem processEntry_expectedSeq (writeOk : AuditEntry → Bool) (s : WorkerState)
    (e : AuditEntry) : (processEntry writeOk s e).expectedSeq = s.expectedSeq := by
  unfold processEntry; dsimp only; split <;> rfl

theorem processEntry_true_journal_core (s : WorkerState) (e : AuditEntry) :
    (processEntry (fun _ => true) s e).journal.map AuditEntry.core =
      s.journal.map AuditEntry.core ++ [AuditEntry.core e] := by
  simp [processEntry, AuditEntry.core]

theorem eraseSeq_cons_self (k : Nat) (k2 : Nat) (e : AuditEntry)
    (t : List (Nat × AuditEntry)) (h : k2 = k) :
    eraseSeq k ((k2, e) :: t) = eraseSeq k t := by
  simp [eraseSeq, List.filter_cons, h]

theorem eraseSeq_cons_ne (k : Nat) (k2 : Nat) (e : AuditEntry)
    (t : List (Nat × AuditEntry)) (h : ¬k2 = k) :
    eraseSeq k ((k2, e) :: t) = (k2, e) :: eraseSeq k t := by
  simp [eraseSeq, List.filter_cons, h]

theorem lookupSeq_eraseSeq_self (k : Nat) (l : List (Nat × AuditEntry)) :
    lookupSeq k (eraseSeq k l) = none := by
  induction l with
  | nil => rfl
  | cons p t ih =>
      obtain ⟨k2, e⟩ := p
      by_cases h : k2 = k
      · rw [eraseSeq_cons_self k k2 e t h]; exact ih
      · rw [eraseSeq_cons_ne k k2 e t h]
        simpa [lookupSeq, h] using ih

theorem lookupSeq_eraseSeq_ne (k j : Nat) (l : List (Nat × AuditEntry)) (h : j ≠ k) :
    lookupSeq j (eraseSeq k l) = lookupSeq j l := by
  induction l with
  | nil => rfl
  | cons p t ih =>
      obtain ⟨k2, e⟩ := p
      by_cases hp : k2 = k
      · rw [eraseSeq_cons_self k k2 e t hp]
        have hkj : ¬k2 = j := by omega
        simpa [lookupSeq, hkj] using ih
      · rw [eraseSeq_cons_ne k k2 e t hp]
        by_cases hj : k2 = j
        · simp [lookupSeq, hj]
        · simpa [lookupSeq, hj] using ih

theorem lookupSeq_eraseSeq_none (k j : Nat) (l : List (Nat × AuditEntry))
    (h : lookupSeq j l = none) : lookupSeq j (eraseSeq k l) = none := by
  by_cases hjk : j = k
  · subst hjk; exact lookupSeq_eraseSeq_self j l
  · rw [lookupSeq_eraseSeq_ne k j l hjk]; exact h

theorem eraseSeq_length_lt (k : Nat) (l : List (Nat × AuditEntry)) (e : AuditEntry)
    (h : lookupSeq k l = some e) : (eraseSeq k l).length < l.length := by
  induction l with
  | nil => simp [lookupSeq] at h
  | cons p t ih =>
      by_cases hp : p.1 = k
      · have : (eraseSeq k t).length ≤ t.length := List.length_filter_le _ t
        simp only [eraseSeq, List.filter_cons, hp, bne_self_eq_false]
        simpa [eraseSeq] using Nat.lt_succ_of_le this
      · simp only [lookupSeq, hp, if_neg hp] at h
        have := ih h
        simp only [eraseSeq, List.filter_cons, bne, hp]
        simpa [eraseSeq, hp] using Nat.succ_lt_succ this

/-- The maximal run of contiguous pending successors starting at key
`k` (reading, never erasing; the worker never stores duplicate keys). -/
def contigChain (p : List (Nat × AuditEntry)) : Nat → Nat → List AuditEntry
  | k, fuel + 1 =>
      match lookupSeq k p with
      | some e => e :: contigChain p (k + 1) fuel
      | none => []
  | _, 0 => []

theorem contigChain_eraseSeq (p : List (Nat × AuditEntry)) (j : Nat) :
    ∀ (fuel k : Nat), j < k → contigChain (eraseSeq j p) k fuel = contigChain p k fuel := by
  intro fuel
  induction fuel with
  | zero => intro k _; rfl
  | succ n ih =>
      intro k hk
      unfold contigChain
      rw [lookupSeq_eraseSeq_ne j k p (by omega)]
      cases lookupSeq k p with
      | none => rfl
      | some e => rw [ih (k + 1) (by omega)]

theorem drainPending_pending_none (writeOk : AuditEntry → Bool) (j : Nat) :
    ∀ (fuel : Nat) (s : WorkerState), lookupSeq j s.pending = none →
      lookupSeq j (drainPending writeOk fuel s).pending = none := by
  intro fuel
  induction fuel with
  | zero => intro s h; exact h
  | succ n ih =>
      intro s h
      unfold drainPending
      cases hl : lookupSeq s.expectedSeq s.pending with
      | none => exact h
      | some e =>
          apply ih
          simpa [processEntry_pending] using lookupSeq_eraseSeq_none s.expectedSeq j s.pending h

/-- What the receive loop's drain does, characterized by `contigChain`:
with enough fuel it appends exactly the contiguous run of pending
successors to the journal (in key order), advances `expectedSeq` past
that run, removes the processed keys, and stops at the first gap. -/
theorem drainPending_spec :
    ∀ (fuel : Nat) (s : WorkerState), s.pending.length ≤ fuel →
      (drainPending (fun _ => true) fuel s).journal.map AuditEntry.core =
        s.journal.map AuditEntry.core ++
          (contigChain s.pending s.expectedSeq fuel).map AuditEntry.core ∧
      (drainPending (fun _ => true) fuel s).expectedSeq =
        s.expectedSeq + (contigChain s.pending s.expectedSeq fuel).length ∧
      (∀ k, s.expectedSeq ≤ k → k < (drainPending (fun _ => true) fuel s).expectedSeq →
        lookupSeq k (drainPending (fun _ => true) fuel s).pending = none) ∧
      lookupSeq (drainPending (fun _ => true) fuel s).expectedSeq
        (drainPending (fun _ => true) fuel s).pending = none := by
  intro fuel
  induction fuel with
  | zero =>
      intro s hf
      have hp : s.pending = [] := List.length_eq_zero.mp (Nat.le_zero.mp hf)
      have hd : drainPending (fun _ => true) 0 s = s := rfl
      have hc : contigChain s.pending s.expectedSeq 0 = [] := rfl
      rw [hd, hc]
      refine ⟨by simp, by simp, ?_, by rw [hp]; rfl⟩
      intro k h1 h2
      exact absurd h2 (by omega)
  | succ n ih =>
      intro s hf
      cases hl : lookupSeq s.expectedSeq s.pending with
      | none =>
          have hd : drainPending (fun _ => true) (n + 1) s = s := by
            simp only [drainPending, hl]
          have hc : contigChain s.pending s.expectedSeq (n + 1) = [] := by
            simp only [contigChain, hl]
          rw [hd, hc]
          refine ⟨by simp, by simp, ?_, hl⟩
          intro k h1 h2
          exact absurd h2 (by omega)
      | some e =>
          have hd : drainPending (fun _ => true) (n + 1) s =
              drainPending (fun _ => true) n
                { processEntry (fun _ => true) s e with
                  pending := eraseSeq s.expectedSeq s.pending,
                  expectedSeq := s.expectedSeq + 1 } := by
            simp only [drainPending, hl]
          have hlt : (eraseSeq s.expectedSeq s.pending).length < s.pending.length :=
            eraseSeq_length_lt s.expectedSeq s.pending e hl
          have hfe : (eraseSeq s.expectedSeq s.pending).length ≤ n := by omega
          have hIH := ih { processEntry (fun _ => true) s e with
            pending := eraseSeq s.expectedSeq s.pending,
            expectedSeq := s.expectedSeq + 1 } (by simpa using hfe)
          obtain ⟨ihj, ihe, ihr, ihn⟩ := hIH
          dsimp only at ihj ihe ihr ihn
          have hcc : contigChain s.pending s.expectedSeq (n + 1) =
              e :: contigChain s.pending (s.expectedSeq + 1) n := by
            simp only [contigChain, hl]
          have hce : contigChain (eraseSeq s.expectedSeq s.pending) (s.expectedSeq + 1) n =
              contigChain s.pending (s.expectedSeq + 1) n :=
            contigChain_eraseSeq s.pending s.expectedSeq n (s.expectedSeq + 1) (by omega)
          rw [hd, hcc]
          refine ⟨?_, ?_, ?_, ?_⟩
          · rw [ihj]
            simp only [hce]
            have hjs : ({ processEntry (fun _ => true) s e with
                pending := eraseSeq s.expectedSeq s.pending,
                expectedSeq := s.expectedSeq + 1 }).journal =
                (processEntry (fun _ => true) s e).journal := rfl
            rw [hjs, processEntry_true_journal_core]
            simp
          · rw [ihe]
            simp only [hce, List.length_cons]
            omega
          · intro k h1 h2
            by_cases hk : k = s.expectedSeq
            · subst hk
              apply drainPending_pending_none
              simpa using lookupSeq_eraseSeq_self s.expectedSeq s.pending
            · exact ihr k (by omega) h2
          · exact ihn

/-- Claim C3 (amended): dispatch of a received entry.  With every write
succeeding: an in-sequence entry is processed at once and the whole
contiguous run of pending successors is processed in key order and
removed, `expectedSeq` moving past it to the first gap; an entry with
any other `sequence_id` — greater *or smaller* than `expectedSeq` — is
inserted into the pending map when it has room, and otherwise (fail
open) processed immediately with `expectedSeq` set to
`sequence_id + 1`, even when that rewinds it. -/
theorem C3_dispatch_cases (maxPending : Nat) (s : WorkerState) (e : AuditEntry) :
    (e.sequenceID = s.expectedSeq →
      (handleEntry (fun _ => true) maxPending s e).journal.map AuditEntry.core =
        s.journal.map AuditEntry.core ++ AuditEntry.core e ::
          (contigChain s.pending (s.expectedSeq + 1) s.pending.length).map AuditEntry.core ∧
      (handleEntry (fun _ => true) maxPending s e).expectedSeq =
        s.expectedSeq + 1 +
          (contigChain s.pending (s.expectedSeq + 1) s.pending.length).length ∧
      (∀ k, s.expectedSeq + 1 ≤ k →
        k < (handleEntry (fun _ => true) maxPending s e).expectedSeq →
        lookupSeq k (handleEntry (fun _ => true) maxPending s e).pending = none) ∧
      lookupSeq (handleEntry (fun _ => true) maxPending s e).expectedSeq
        (handleEntry (fun _ => true) maxPending s e).pending = none) ∧
    (e.sequenceID ≠ s.expectedSeq → maxPending ≤ s.pending.length →
      (handleEntry (fun _ => true) maxPending s e).journal.map AuditEntry.core =
        s.journal.map AuditEntry.core ++ [AuditEntry.core e] ∧
      (handleEntry (fun _ => true) maxPending s e).expectedSeq = e.sequenceID + 1 ∧
      (handleEntry (fun _ => true) maxPending s e).pending = s.pending) ∧
    (e.sequenceID ≠ s.expectedSeq → s.pending.length < maxPending →
      (handleEntry (fun _ => true) maxPending s e).journal = s.journal ∧
      (handleEntry (fun _ => true) maxPending s e).expectedSeq = s.expectedSeq ∧
      (handleEntry (fun _ => true) maxPending s e).pending = setSeq e.sequenceID e s.pending ∧
      lookupSeq e.sequenceID (handleEntry (fun _ => true) maxPending s e).pending = some e) := by
  have hbrEq : e.sequenceID = s.expectedSeq →
      handleEntry (fun _ => true) maxPending s e =
        drainPending (fun _ => true) s.pending.length
          { expectedSeq := s.expectedSeq + 1, pending := s.pending,
            prevHash := (processEntry (fun _ => true) s e).prevHash,
            journal := (processEntry (fun _ => true) s e).journal } := by
    intro he
    unfold handleEntry
    rw [if_pos he]
    have hp := processEntry_pending (fun _ => true) s e
    cases hq : processEntry (fun _ => true) s e with
    | mk a b c d =>
        rw [hq] at hp
        have hb : b = s.pending := hp
        rw [← hb]
  refine ⟨?_, ?_, ?_⟩
  · intro he
    rw [hbrEq he]
    have hspec := drainPending_spec s.pending.length
      { expectedSeq := s.expectedSeq + 1, pending := s.pending,
        prevHash := (processEntry (fun _ => true) s e).prevHash,
        journal := (processEntry (fun _ => true) s e).journal } (Nat.le_refl _)
    obtain ⟨hj, hexp, hrem, hnone⟩ := hspec
    dsimp only at hj hexp hrem hnone
    refine ⟨?_, ?_, ?_, ?_⟩
    · rw [hj, processEntry_true_journal_core]
      simp
    · rw [hexp]
    · intro k h1 h2
      exact hrem k h1 h2
    · exact hnone
  · intro hne hfull
    have hbr : handleEntry (fun _ => true) maxPending s e =
        { processEntry (fun _ => true) s e with expectedSeq := e.sequenceID + 1 } := by
      unfold handleEntry
      rw [if_neg hne, if_pos hfull]
    refine ⟨?_, ?_, ?_⟩
    · rw [hbr]
      simpa using processEntry_true_journal_core s e
    · rw [hbr]
    · rw [hbr]
      simpa using processEntry_pending (fun _ => true) s e
  · intro hne hroom
    have hbr : handleEntry (fun _ => true) maxPending s e =
        { s with pending := setSeq e.sequenceID e s.pending } := by
      unfold handleEntry
      rw [if_neg hne, if_neg (by omega)]
    refine ⟨by rw [hbr], by rw [hbr], by rw [hbr], ?_⟩
    rw [hbr]
    simp [setSeq, lookupSeq]

/-- An entry whose only non-zero field is its sequence number. -/
def entrySeq (n : Nat) : AuditEntry := { sequenceID := n }

/-- Claim C3 (counterexample to the claim as stated): a worker that has
written entry 0 (so `expected_seq = 1`) and then receives a second entry
with `sequence_id = 0 < expected_seq` while `pending` has room does
*not* process it — the journal stays at one line and the stale entry
sits in `pending` — and in the fail-open branch (`max_pending = 1`,
receiving 5, 7, 2) the stale entry 2 *does* rewind `expected_seq` from
8 to 3. -/
theorem C3_stale_dispatch_cex :
    (runWorker (fun _ => true) 1000 (initWorker "test-seed")
      [entrySeq 0, entrySeq 0]).journal.length = 1 ∧
    lookupSeq 0 (runWorker (fun _ => true) 1000 (initWorker "test-seed")
      [entrySeq 0, entrySeq 0]).pending = some (entrySeq 0) ∧
    (runWorker (fun _ => true) 1 (initWorker "test-seed")
      [entrySeq 5, entrySeq 7, entrySeq 2]).expectedSeq = 3 := by
  decide

/-! ## Claim C4: when the sequence id is reserved

The proxy handler's two response paths (`handleRegularResponse` and
`handleStreamingResponse`, proxy handler source) are straight-line
statement sequences; their statement order is embedded as step lists,
and `getNextSequenceID` (an atomic fetch-and-increment,
`atomic.AddUint64(&h.nextSequenceID, 1) - 1`) as a counter
transformer. -/

/-- The externally meaningful statements of a handler path. -/
inductive HandlerStep
  | createCapturer
  | reserveSeq
  | forwardUpstream
  | computeDuration
  | assembleEntry
  | enqueueEntry
  | createTimeoutContext
  | extractTrace
  | setCallback
  | startMonitoring
  | completeCapturer
deriving DecidableEq, Repr

/-- `Handler.handleRegularResponse` in source order: wrap the writer,
`proxy.ServeHTTP` (forward), measure duration, `getNextSequenceID`,
build the entry, enqueue it. -/
def regularHandlerSteps : List HandlerStep :=
  [HandlerStep.createCapturer, HandlerStep.forwardUpstream, HandlerStep.computeDuration,
   HandlerStep.reserveSeq, HandlerStep.assembleEntry, HandlerStep.enqueueEntry]

/-- `Handler.handleStreamingResponse` in source order: `getNextSequenceID`
first, then context/trace/capturer setup, monitoring, `proxy.ServeHTTP`,
`capturer.Complete()` (the entry is assembled and enqueued inside the
completion callback). -/
def streamingHandlerSteps : List HandlerStep :=
  [HandlerStep.reserveSeq, HandlerStep.createTimeoutContext, HandlerStep.extractTrace,
   HandlerStep.createCapturer, HandlerStep.setCallback, HandlerStep.startMonitoring,
   HandlerStep.forwardUpstream, HandlerStep.completeCapturer]

/-- The path reserves the sequence number before forwarding upstream. -/
def reservesBeforeForward (l : List HandlerStep) : Prop :=
  l.indexOf HandlerStep.reserveSeq < l.indexOf HandlerStep.forwardUpstream

/-- `getNextSequenceID`: return the counter's old value and advance it
(the `uint64` wrap at `2 ^ 64` is beyond any realizable request count
and not modelled). -/
def getNextSequenceID (c : Nat) : Nat × Nat := (c, c + 1)

/-- The ids handed out by `n` successive `getNextSequenceID` calls
starting from counter value `c`. -/
def seqIdsFrom (c : Nat) : Nat → List Nat
  | 0 => []
  | n + 1 => (getNextSequenceID c).1 :: seqIdsFrom (getNextSequenceID c).2 n

theorem seqIdsFrom_le (x : Nat) : ∀ (n c : Nat), x ∈ seqIdsFrom c n → c ≤ x := by
  intro n
  induction n with
  | zero => intro c hx; simp [seqIdsFrom] at hx
  | succ m ih =>
      intro c hx
      simp only [seqIdsFrom, getNextSequenceID, List.mem_cons] at hx
      rcases hx with h | h
      · omega
      · have := ih (c + 1) h
        omega

/-- Claim C4 (counterexample to the claim as stated): the regular
(non-streaming) path forwards the request to the upstream *before*
reserving the sequence id — `proxy.ServeHTTP` precedes
`getNextSequenceID` in `handleRegularResponse` — so the id is not
reserved at request arrival for regular requests. -/
theorem C4_regular_forward_before_reserve_cex :
    ¬reservesBeforeForward regularHandlerSteps ∧
    regularHandlerSteps.indexOf HandlerStep.forwardUpstream <
      regularHandlerSteps.indexOf HandlerStep.reserveSeq := by
  unfold reservesBeforeForward
  exact ⟨by decide, by decide⟩

/-- Claim C4 (amended): the streaming path reserves the sequence id
before forwarding; the regular path reserves it only after the upstream
response completes; and successive reservations of the shared atomic
counter hand out strictly increasing ids, in reservation order. -/
theorem C4_seq_reservation_order :
    reservesBeforeForward streamingHandlerSteps ∧
    regularHandlerSteps.indexOf HandlerStep.forwardUpstream <
      regularHandlerSteps.indexOf HandlerStep.reserveSeq ∧
    ∀ (c n : Nat), List.Pairwise (· < ·) (seqIdsFrom c n) := by
  refine ⟨by unfold reservesBeforeForward; decide, by decide, ?_⟩
  intro c n
  induction n generalizing c with
  | zero => exact List.Pairwise.nil
  | succ m ih =>
      refine List.Pairwise.cons ?_ (ih (c + 1))
      intro x hx
      have := seqIdsFrom_le x m (c + 1) hx
      simp only [getNextSequenceID]
      omega

/-! ## Claim C5: the bounded mirror of `ResponseCapturer.Write`

`internal/proxy/response_capturer.go` lines 130–168 (the successful
forwarding path — the claim quantifies over successful writes) and
`Body` lines 201–207.  Go `int64` sizes are `Int`; the mirror
(`strings.Builder`) is the captured byte list. -/

/-- The capture-relevant fields of `ResponseCapturer`. -/
structure CapturerState where
  mirror : List Nat
  currentSize : Int
  maxSize : Int
  truncated : Bool
deriving DecidableEq, Repr

/-- A fresh streaming capturer (`NewStreamingResponseCapturer`) with
bound `maxSize`. -/
def initCapturer (maxSize : Int) : CapturerState :=
  { mirror := [], currentSize := 0, maxSize := maxSize, truncated := false }

/-- `ResponseCapturer.Write`, successful-forwarding path (lines
144–167): capture up to the remaining budget, count the full size, set
`truncated` on reaching the bound. -/
def capturerWrite (s : CapturerState) (data : List Nat) : CapturerState :=
  if s.maxSize < 0 ∨ s.currentSize < s.maxSize then
    let remaining0 : Int := (data.length : Int)
    let remaining : Int :=
      if 0 < s.maxSize then min remaining0 (s.maxSize - s.currentSize) else remaining0
    if 0 < remaining then
      let s1 := { s with mirror := s.mirror ++ data.take remaining.toNat,
                         currentSize := s.currentSize + (data.length : Int) }
      if 0 < s1.maxSize ∧ s1.maxSize ≤ s1.currentSize then
        { s1 with truncated := true }
      else s1
    else s
  else
    { s with currentSize := s.currentSize + (data.length : Int) }

/-- `ResponseCapturer.Body`: the mirror, plus the literal truncation
marker when `truncated` (as bytes). -/
def capturerBody (s : CapturerState) : List Nat :=
  s.mirror ++
    (if s.truncated
     then strBytes "\n[TRUNCATED: response exceeded max_audit_body_size limit]"
     else [])

/-- A whole sequence of successful `Write` calls on a fresh capturer. -/
def runCapturerWrites (maxSize : Int) (chunks : List (List Nat)) : CapturerState :=
  chunks.foldl capturerWrite (initCapturer maxSize)

/-- The capturer state after the bytes `pb` have been written against a
positive bound: the mirror is the first `bound` bytes, the counter the
full length, `truncated` exactly when the length reached the bound. -/
def capStateOf (bound : Int) (pb : List Nat) : CapturerState :=
  { mirror := pb.take bound.toNat, currentSize := (pb.length : Int), maxSize := bound,
    truncated := decide (bound ≤ (pb.length : Int)) }

theorem capturerWrite_capStateOf (bound : Int) (hb : 0 < bound) (pb d : List Nat) :
    capturerWrite (capStateOf bound pb) d = capStateOf bound (pb ++ d) := by
  unfold capturerWrite capStateOf
  dsimp only
  by_cases hfull : (pb.length : Int) < bound
  · rw [if_pos (Or.inr hfull)]
    rw [if_pos hb]
    by_cases hd : d = []
    · subst hd
      rw [if_neg (by simp)]
      simp [List.take_nil]
    · have hdl : 0 < (d.length : Int) := by
        have : 0 < d.length := List.length_pos.mpr hd
        exact_mod_cast this
      rw [if_pos (by omega : (0:Int) < min (d.length : Int) (bound - (pb.length : Int)))]
      have htake : pb.take bound.toNat = pb := by
        apply List.take_of_length_le
        omega
      have hidx : (min (d.length : Int) (bound - (pb.length : Int))).toNat =
          min d.length (bound.toNat - pb.length) := by
        omega
      have htp : (pb ++ d).take bound.toNat = pb ++ d.take (bound.toNat - pb.length) := by
        rw [List.take_append_eq_append_take]
        rw [List.take_of_length_le (by omega)]
      have htmin : d.take (min d.length (bound.toNat - pb.length)) =
          d.take (bound.toNat - pb.length) := by
        rcases Nat.le_total d.length (bound.toNat - pb.length) with hle | hle
        · rw [Nat.min_eq_left hle, List.take_length, List.take_of_length_le hle]
        · rw [Nat.min_eq_right hle]
      by_cases hcross : bound ≤ (pb.length : Int) + (d.length : Int)
      · rw [if_pos ⟨hb, by omega⟩]
        simp only [CapturerState.mk.injEq]
        refine ⟨?_, by simp, trivial, ?_⟩
        · rw [htake, hidx, htmin, htp]
        · simp only [List.length_append]
          rw [decide_eq_true (by push_cast; omega)]
      · rw [if_neg (by omega)]
        simp only [CapturerState.mk.injEq]
        refine ⟨?_, by simp, trivial, ?_⟩
        · rw [htake, hidx, htmin, htp]
        · symm
          simp only [List.length_append]
          rw [decide_eq_false (by push_cast; omega)]
          rw [decide_eq_false (by omega)]
  · rw [if_neg (by omega)]
    simp only [CapturerState.mk.injEq]
    refine ⟨?_, by simp, trivial, ?_⟩
    · rw [List.take_append_eq_append_take]
      have h0 : bound.toNat - pb.length = 0 := by omega
      rw [h0, List.take_zero, List.append_nil]
    · simp only [List.length_append]
      rw [decide_eq_true (by omega), decide_eq_true (by push_cast; omega)]

theorem runCapturerWrites_spec (bound : Int) (hb : 0 < bound) (chunks : List (List Nat)) :
    runCapturerWrites bound chunks = capStateOf bound chunks.flatten := by
  have main : ∀ (cs : List (List Nat)) (pb : List Nat),
      cs.foldl capturerWrite (capStateOf bound pb) = capStateOf bound (pb ++ cs.flatten) := by
    intro cs
    induction cs with
    | nil => intro pb; simp
    | cons c t ih =>
        intro pb
        simp only [List.foldl_cons, List.flatten_cons]
        rw [capturerWrite_capStateOf bound hb pb c, ih (pb ++ c), List.append_assoc]
  have hinit : initCapturer bound = capStateOf bound [] := by
    unfold initCapturer capStateOf
    simp
    all_goals omega
  unfold runCapturerWrites
  rw [hinit]
  simpa using main chunks []

/-- Claim C5 (amended): for a positive bound, after any sequence of
successful writes the mirror is exactly the first `min(total, bound)`
bytes of the concatenated written bytes, `currentSize`
(`TruncatedAtBytes`) is the cumulative original size, `truncated` is set
exactly when the cumulative size *reaches or exceeds* the bound (`>=`,
so a body of exactly `bound` bytes is marked truncated although no byte
was discarded), and `Body()` appends the literal truncation marker
exactly when `truncated` is set. -/
theorem C5_write_capture_spec (bound : Int) (chunks : List (List Nat)) (hb : 0 < bound) :
    (runCapturerWrites bound chunks).mirror = chunks.flatten.take bound.toNat ∧
    (runCapturerWrites bound chunks).currentSize = (chunks.flatten.length : Int) ∧
    ((runCapturerWrites bound chunks).truncated = true ↔
      bound ≤ (chunks.flatten.length : Int)) ∧
    capturerBody (runCapturerWrites bound chunks) =
      chunks.flatten.take bound.toNat ++
        (if bound ≤ (chunks.flatten.length : Int)
         then strBytes "\n[TRUNCATED: response exceeded max_audit_body_size limit]"
         else []) := by
  rw [runCapturerWrites_spec bound hb chunks]
  refine ⟨rfl, rfl, by simp [capStateOf], ?_⟩
  unfold capturerBody capStateOf
  dsimp only
  by_cases h : bound ≤ (chunks.flatten.length : Int)
  · rw [if_pos h, decide_eq_true h, if_pos rfl]
  · rw [if_neg h, decide_eq_false h, if_neg (by simp)]

/-- Claim C5 witness: bound 3, writes `[1,2]` then `[3,4]` — mirror
`[1,2,3]`, size 4, truncated, marker appended. -/
theorem C5_write_capture_spec_witness :
    0 < (3 : Int) ∧
    ((runCapturerWrites 3 [[1, 2], [3, 4]]).mirror =
        ([[1, 2], [3, 4]] : List (List Nat)).flatten.take (3 : Int).toNat ∧
      (runCapturerWrites 3 [[1, 2], [3, 4]]).currentSize =
        ((([[1, 2], [3, 4]] : List (List Nat)).flatten.length : Nat) : Int) ∧
      ((runCapturerWrites 3 [[1, 2], [3, 4]]).truncated = true ↔
        (3 : Int) ≤ ((([[1, 2], [3, 4]] : List (List Nat)).flatten.length : Nat) : Int)) ∧
      capturerBody (runCapturerWrites 3 [[1, 2], [3, 4]]) =
        ([[1, 2], [3, 4]] : List (List Nat)).flatten.take (3 : Int).toNat ++
          (if (3 : Int) ≤ ((([[1, 2], [3, 4]] : List (List Nat)).flatten.length : Nat) : Int)
           then strBytes "\n[TRUNCATED: response exceeded max_audit_body_size limit]"
           else [])) :=
  ⟨by decide, C5_write_capture_spec 3 [[1, 2], [3, 4]] (by decide)⟩

/-- Claim C5 (counterexample to the claim as stated): with bound 2 and a
single 2-byte write the cumulative size never exceeds the bound and no
byte is discarded — the mirror holds the whole written sequence — yet
`truncated` is set and `Body()` carries the truncation marker. -/
theorem C5_exact_bound_truncated_cex :
    (runCapturerWrites 2 [[97, 98]]).mirror = [97, 98] ∧
    (runCapturerWrites 2 [[97, 98]]).currentSize = 2 ∧
    (runCapturerWrites 2 [[97, 98]]).truncated = true ∧
    capturerBody (runCapturerWrites 2 [[97, 98]]) =
      [97, 98] ++ strBytes "\n[TRUNCATED: response exceeded max_audit_body_size limit]" := by
  refine ⟨by decide, by decide, by decide, by decide⟩

/-! ## Claim C6: the one-shot completion callback

`ResponseCapturer.finalize` (response_capturer.go lines 178–192) gates
the callback behind `completed.CompareAndSwap(false, true)`.  The CAS is
atomic, so however the finalization paths race — client disconnect,
deadline, write failure, `Complete()` after upstream end-of-stream,
panic recovery in `StartMonitoring` — their `finalize()` calls execute
in *some* sequential order; a run is therefore a nonempty list of
finalization events, each of whose handlers ends in `finalize()`. -/

/-- The callback gate: the atomic `completed` flag and how many times
`onComplete` has run. -/
structure CallbackCell where
  completed : Bool
  calls : Nat
deriving DecidableEq, Repr

/-- `finalize`: CAS `completed` false→true; only a successful swap
invokes `onComplete`. -/
def finalize (c : CallbackCell) : CallbackCell :=
  if c.completed then c else { completed := true, calls := c.calls + 1 }

/-- The finalization paths of a streaming capture.  `Write` failure,
the three context-cancellation reasons seen by `StartMonitoring`, panic
recovery inside `StartMonitoring`, and `Complete()` when the upstream
ends — each ends by calling `finalize`. -/
inductive FinalizeEvent
  | writeError
  | clientDisconnect
  | deadlineExceeded
  | contextError
  | monitoringPanic
  | upstreamDone
deriving DecidableEq, Repr

/-- Run the capture's finalization history: every event's handler calls
`finalize` on the shared cell. -/
def runFinalizers (evs : List FinalizeEvent) : CallbackCell :=
  evs.foldl (fun c _ => finalize c) { completed := false, calls := 0 }

theorem finalize_completed (c : CallbackCell) (h : c.completed = true) : finalize c = c := by
  unfold finalize
  rw [if_pos h]

/-- Claim C6: for any nonempty sequence of racing finalization events,
the completion callback runs exactly once. -/
theorem C6_callback_exactly_once (evs : List FinalizeEvent) (h : evs ≠ []) :
    (runFinalizers evs).calls = 1 := by
  obtain ⟨e0, rest, rfl⟩ := List.exists_cons_of_ne_nil h
  have stable : ∀ (l : List FinalizeEvent) (n : Nat),
      (l.foldl (fun c _ => finalize c) { completed := true, calls := n }).calls = n := by
    intro l
    induction l with
    | nil => intro n; rfl
    | cons x t ih =>
        intro n
        simp only [List.foldl_cons]
        rw [finalize_completed _ rfl]
        exact ih n
  unfold runFinalizers
  simp only [List.foldl_cons]
  have h1 : finalize { completed := false, calls := 0 } = { completed := true, calls := 1 } := rfl
  rw [h1]
  exact stable rest 1

/-- Claim C6 witness: a client disconnect racing the upstream's own
completion still fires the callback once. -/
theorem C6_callback_exactly_once_witness :
    ([FinalizeEvent.clientDisconnect, FinalizeEvent.upstreamDone] : List FinalizeEvent) ≠ [] ∧
    (runFinalizers [FinalizeEvent.clientDisconnect, FinalizeEvent.upstreamDone]).calls = 1 :=
  ⟨by decide, C6_callback_exactly_once [FinalizeEvent.clientDisconnect, FinalizeEvent.upstreamDone]
    (by decide)⟩

/-! ## JSON values and Go's `encoding/json` decoding

`internal/proxy/stream_reconstruct.go` decodes each SSE payload with
`json.Unmarshal(..., &map[string]interface{})`.  A decoded Go
`interface{}` is nil / bool / float64 / string / `[]interface{}` /
`map[string]interface{}`; `JsonValue` mirrors that shape (numbers keep
their literal text — no claim below depends on float64 arithmetic).
`parseJsonValue` models the stdlib decoder for the inputs the claims
use; the universal theorems keep the decoder abstract (a `parse`
parameter), so only the concrete counterexamples rely on this model.
Known deliberate deviations of the model, none reachable by the inputs
used: surrogate-pair `\u` escapes are not combined, trailing commas are
accepted, and number syntax is checked only lexically. -/

/-- A decoded JSON value (the shape of a Go `interface{}` decoded by
`encoding/json`). -/
inductive JsonValue where
  | null
  | bool (b : Bool)
  | num (lit : String)
  | str (s : String)
  | arr (elems : List JsonValue)
  | obj (fields : List (String × JsonValue))

/-- A decoded `map[string]interface{}`. -/
abbrev JsonObject := List (String × JsonValue)

/-- JSON's whitespace characters. -/
def jsonWsChar (c : Char) : Bool := c == ' ' || c == '\t' || c == '\n' || c == '\r'

/-- Skip JSON whitespace. -/
def skipJsonWs (cs : List Char) : List Char := cs.dropWhile jsonWsChar

/-- The value of a hex digit. -/
def hexVal (c : Char) : Option Nat :=
  if c.isDigit then some (c.toNat - 48)
  else if 'a' ≤ c ∧ c ≤ 'f' then some (c.toNat - 87)
  else if 'A' ≤ c ∧ c ≤ 'F' then some (c.toNat - 55)
  else none

/-- Parse the body of a JSON string (after the opening quote): returns
the decoded characters and the remainder after the closing quote. -/
def parseJsonString : Nat → List Char → Option (List Char × List Char)
  | 0, _ => none
  | fuel + 1, cs =>
      match cs with
      | '"' :: rest => some ([], rest)
      | '\\' :: e :: rest =>
          let esc : Option (Char × List Char) :=
            match e, rest with
            | '"', r => some ('"', r)
            | '\\', r => some ('\\', r)
            | '/', r => some ('/', r)
            | 'b', r => some ('\x08', r)
            | 'f', r => some ('\x0c', r)
            | 'n', r => some ('\n', r)
            | 'r', r => some ('\r', r)
            | 't', r => some ('\t', r)
            | 'u', h1 :: h2 :: h3 :: h4 :: r =>
                (match hexVal h1, hexVal h2, hexVal h3, hexVal h4 with
                 | some a, some b, some c, some d =>
                     let code := ((a * 16 + b) * 16 + c) * 16 + d
                     if 0xD800 ≤ code ∧ code < 0xE000 then some ('�', r)
                     else some (Char.ofNat code, r)
                 | _, _, _, _ => none)
            | _, _ => none
          match esc with
          | some (c, r) => (parseJsonString fuel r).map (fun p => (c :: p.1, p.2))
          | none => none
      | c :: rest =>
          if c.toNat < 32 then none
          else (parseJsonString fuel rest).map (fun p => (c :: p.1, p.2))
      | [] => none

/-- Characters a JSON number literal may contain. -/
def jsonNumChar (c : Char) : Bool :=
  c.isDigit || c == '-' || c == '+' || c == '.' || c == 'e' || c == 'E'

/-- Parse a JSON number lexically, keeping its literal text. -/
def parseJsonNumber (cs : List Char) : Option (JsonValue × List Char) :=
  let run := cs.takeWhile jsonNumChar
  if run.isEmpty then none else some (.num (String.mk run), cs.drop run.length)

/-- Parse one JSON value.  Arrays and objects parse their first element
and then re-enter the parser on the re-bracketed remainder, so the
whole parser is one function, structurally recursive on fuel (and thus
evaluable inside proofs). -/
def parseJsonValue : Nat → List Char → Option (JsonValue × List Char)
  | 0, _ => none
  | fuel + 1, cs0 =>
      match skipJsonWs cs0 with
      | 'n' :: 'u' :: 'l' :: 'l' :: rest => some (.null, rest)
      | 't' :: 'r' :: 'u' :: 'e' :: rest => some (.bool true, rest)
      | 'f' :: 'a' :: 'l' :: 's' :: 'e' :: rest => some (.bool false, rest)
      | '"' :: rest =>
          (parseJsonString (rest.length + 1) rest).map (fun p => (.str (String.mk p.1), p.2))
      | '[' :: rest =>
          (match skipJsonWs rest with
           | ']' :: r2 => some (.arr [], r2)
           | _ =>
               match parseJsonValue fuel rest with
               | some (v, r2) =>
                   (match skipJsonWs r2 with
                    | ']' :: r3 => some (.arr [v], r3)
                    | ',' :: r3 =>
                        (match parseJsonValue fuel ('[' :: r3) with
                         | some (.arr vs, r4) => some (.arr (v :: vs), r4)
                         | _ => none)
                    | _ => none)
               | none => none)
      | '\x7b' :: rest =>
          (match skipJsonWs rest with
           | '\x7d' :: r2 => some (.obj [], r2)
           | '"' :: rk =>
               (match parseJsonString (rk.length + 1) rk with
                | some (key, r2) =>
                    (match skipJsonWs r2 with
                     | ':' :: r3 =>
                         (match parseJsonValue fuel r3 with
                          | some (v, r4) =>
                              (match skipJsonWs r4 with
                               | '\x7d' :: r5 => some (.obj [(String.mk key, v)], r5)
                               | ',' :: r5 =>
                                   (match parseJsonValue fuel ('\x7b' :: r5) with
                                    | some (.obj fs, r6) =>
                                        some (.obj ((String.mk key, v) :: fs), r6)
                                    | _ => none)
                               | _ => none)
                          | none => none)
                     | _ => none)
                | none => none)
           | _ => none)
      | c :: rest => parseJsonNumber (c :: rest)
      | [] => none

/-- `json.Unmarshal(data, &map[string]interface{})`: the input must be
one JSON object followed only by whitespace. -/
def goUnmarshalObject (s : String) : Option JsonObject :=
  match parseJsonValue (s.length + 16) s.data with
  | some (JsonValue.obj fields, rest) => if skipJsonWs rest = [] then some fields else none
  | _ => none

/-- Go map lookup on the decoded fields (later duplicate keys win, as
in a Go map built by the decoder). -/
def jsonLookup (fields : JsonObject) (k : String) : Option JsonValue :=
  fields.foldl (fun acc p => if p.1 = k then some p.2 else acc) none

/-- Go type assertion `.(string)` with ok. -/
def asString : Option JsonValue → Option String
  | some (JsonValue.str s) => some s
  | _ => none

/-- Go type assertion `.([]interface{})` with ok. -/
def asArr : Option JsonValue → Option (List JsonValue)
  | some (JsonValue.arr xs) => some xs
  | _ => none

/-- Go type assertion `.(map[string]interface{})` with ok. -/
def asObj : Option JsonValue → Option JsonObject
  | some (JsonValue.obj fs) => some fs
  | _ => none

/-- Go type assertion `.(float64)` with ok (JSON numbers only). -/
def asNumLit : Option JsonValue → Option String
  | some (JsonValue.num l) => some l
  | _ => none

/-! ## SSE parsing (`parseSSEChunks`, stream_reconstruct.go lines 39–69) -/

/-- Go `unicode.IsSpace` (the White_Space code points). -/
def goWhiteSpace (c : Char) : Bool :=
  let n := c.toNat
  (9 ≤ n && n ≤ 13) || n == 32 || n == 0x85 || n == 0xA0 || n == 0x1680 ||
  (0x2000 ≤ n && n ≤ 0x200A) || n == 0x2028 || n == 0x2029 || n == 0x202F ||
  n == 0x205F || n == 0x3000

/-- Go `strings.TrimSpace` on characters. -/
def goTrimSpace (cs : List Char) : List Char :=
  ((cs.dropWhile goWhiteSpace).reverse.dropWhile goWhiteSpace).reverse

/-- Go `strings.Split(s, "\n")` on characters. -/
def splitNl : List Char → List (List Char)
  | [] => [[]]
  | c :: rest =>
      if c = '\n' then [] :: splitNl rest
      else
        match splitNl rest with
        | h :: t => (c :: h) :: t
        | [] => [[c]]

theorem splitNl_ne_nil (cs : List Char) : splitNl cs ≠ [] := by
  cases cs with
  | nil => simp [splitNl]
  | cons c rest =>
      unfold splitNl
      by_cases h : c = '\n'
      · rw [if_pos h]; simp
      · rw [if_neg h]
        cases splitNl rest <;> simp

theorem splitNl_append (a b : List Char) :
    splitNl (a ++ '\n' :: b) = splitNl a ++ splitNl b := by
  induction a with
  | nil => simp [splitNl]
  | cons c t ih =>
      by_cases h : c = '\n'
      · simp only [List.cons_append, splitNl, if_pos h]
        rw [show t.append ('\n' :: b) = t ++ '\n' :: b from rfl, ih]
      · simp only [List.cons_append, splitNl, if_neg h]
        have ih2 : splitNl (t.append ('\n' :: b)) = splitNl t ++ splitNl b := ih
        rw [ih2]
        cases hs : splitNl t with
        | nil => exact absurd hs (splitNl_ne_nil t)
        | cons x xs => simp

/-- The body of the `parseSSEChunks` loop for one line: trim, skip empty
lines and the `data: [DONE]` marker, keep `data: `-prefixed lines whose
payload decodes, drop everything else.  (The Go chunk's `time.Now()`
timestamp field carries no audited information and is not modelled.) -/
def sseLine (parse : String → Option JsonObject) (line : List Char) : Option JsonObject :=
  if goTrimSpace line = [] ∨ goTrimSpace line = ("data: [DONE]").data then none
  else if (goTrimSpace line).take 6 = ("data: ").data then
    parse (String.mk ((goTrimSpace line).drop 6))
  else none

/-- `parseSSEChunks`: split on newlines and run the loop body over
every line. -/
def parseSSEChunks (parse : String → Option JsonObject) (body : String) :
    List JsonObject :=
  (splitNl body.data).filterMap (sseLine parse)

/-! ## OpenAI delta consolidation (`reconstructOpenAIStream`,
stream_reconstruct.go lines 72–196) -/

/-- The walk's accumulator: `contentBuilder`, `role`, `toolCalls`,
`finishReason`, `usage`. -/
structure DeltaAcc where
  content : String
  role : String
  toolCalls : List JsonValue
  finishReason : String
  usage : Option JsonObject

/-- The empty accumulator the walk starts from. -/
def initAcc : DeltaAcc :=
  { content := "", role := "", toolCalls := [], finishReason := "", usage := none }

/-- One iteration of the delta walk (lines 111–147).  `none` models the
panic of the unchecked assertion `choices[0].(map[string]interface{})`
on a non-object element. -/
def walkChunk (acc : DeltaAcc) (chunk : JsonObject) : Option DeltaAcc :=
  match asArr (jsonLookup chunk "choices") with
  | none => some acc
  | some [] => some acc
  | some (c0 :: _) =>
      match c0 with
      | JsonValue.obj choice =>
          (match asObj (jsonLookup choice "delta") with
           | none => some acc
           | some delta =>
               let acc1 := match asString (jsonLookup delta "role") with
                 | some r => if r ≠ "" then { acc with role := r } else acc
                 | none => acc
               let acc2 := match asString (jsonLookup delta "content") with
                 | some ctext => { acc1 with content := acc1.content ++ ctext }
                 | none => acc1
               let acc3 := match asArr (jsonLookup delta "tool_calls") with
                 | some tc => { acc2 with toolCalls := acc2.toolCalls ++ tc }
                 | none => acc2
               let acc4 := match asString (jsonLookup choice "finish_reason") with
                 | some fr => if fr ≠ "" then { acc3 with finishReason := fr } else acc3
                 | none => acc3
               let acc5 := match asObj (jsonLookup chunk "usage") with
                 | some u => { acc4 with usage := some u }
                 | none => acc4
               some acc5)
      | _ => none

/-- The whole delta walk. -/
def walkChunks : DeltaAcc → List JsonObject → Option DeltaAcc
  | acc, [] => some acc
  | acc, c :: t =>
      match walkChunk acc c with
      | some a => walkChunks a t
      | none => none

/-- Replace the first occurrence of `pat` (Go
`strings.Replace(s, pat, repl, 1)`). -/
def replaceOnceChars (pat repl : List Char) : Nat → List Char → List Char
  | 0, cs => cs
  | fuel + 1, cs =>
      if cs.take pat.length = pat then repl ++ cs.drop pat.length
      else
        match cs with
        | [] => []
        | c :: rest => c :: replaceOnceChars pat repl fuel rest

/-- Go `strings.Replace(s, pat, repl, 1)`. -/
def goReplaceOnce (s pat repl : String) : String :=
  String.mk (replaceOnceChars pat.data repl.data s.data.length s.data)

/-- The metadata copied from the first chunk (lines 83–102): `id`,
`object` (with the first `".chunk"` removed), `created`, `model`,
`service_tier`, `system_fingerprint`, each only when present with the
asserted type.  (Go's `int64(created)` float conversion keeps the
numeric value; the model keeps the literal.) -/
def metaCopy (first : JsonObject) : JsonObject :=
  (match asString (jsonLookup first "id") with
   | some v => [("id", JsonValue.str v)]
   | none => []) ++
  (match asString (jsonLookup first "object") with
   | some v => [("object", JsonValue.str (goReplaceOnce v ".chunk" ""))]
   | none => []) ++
  (match asNumLit (jsonLookup first "created") with
   | some v => [("created", JsonValue.num v)]
   | none => []) ++
  (match asString (jsonLookup first "model") with
   | some v => [("model", JsonValue.str v)]
   | none => []) ++
  (match asString (jsonLookup first "service_tier") with
   | some v => [("service_tier", JsonValue.str v)]
   | none => []) ++
  (match asString (jsonLookup first "system_fingerprint") with
   | some v => [("system_fingerprint", JsonValue.str v)]
   | none => [])

/-- The consolidated `message` map (lines 150–162): optional role; a
non-empty concatenated content wins, else tool calls with null content,
else no content field at all. -/
def buildMessage (acc : DeltaAcc) : JsonObject :=
  (if acc.role ≠ "" then [("role", JsonValue.str acc.role)] else []) ++
  (if acc.content ≠ "" then [("content", JsonValue.str acc.content)]
   else if acc.toolCalls.length > 0 then
     [("content", JsonValue.null), ("tool_calls", JsonValue.arr acc.toolCalls)]
   else [])

/-- `reconstructOpenAIStream` up to JSON serialization: the
`reconstructed` map and the metadata.  `none` covers Go's two empty
outcomes — the `len(chunks) == 0` early return of `("", nil)` and the
panic of the walk's unchecked type assertion; `MarshalIndent` cannot
fail on these maps, so a non-panicking run with nonempty chunks always
returns a non-empty string in Go. -/
def reconstructOpenAIStream (chunks : List JsonObject) (elapsed : Int) :
    Option (JsonObject × StreamingMetadata) :=
  match chunks with
  | [] => none
  | first :: _ =>
      match walkChunks initAcc chunks with
      | none => none
      | some acc =>
          let choice : JsonObject :=
            [("index", JsonValue.num "0"), ("message", JsonValue.obj (buildMessage acc))] ++
            (if acc.finishReason ≠ "" then [("finish_reason", JsonValue.str acc.finishReason)]
             else [])
          let reconstructed : JsonObject :=
            metaCopy first ++ [("choices", JsonValue.arr [JsonValue.obj choice])] ++
            (match acc.usage with
             | some u => [("usage", JsonValue.obj u)]
             | none => [])
          some (reconstructed,
            { chunksReceived := chunks.length, reconstructedFromStream := true,
              firstChunkTime := 0, lastChunkTime := elapsed })

/-- The outcome of `reconstructStreamResponse`: the input returned
unchanged with no metadata, a consolidated object with metadata, or a
propagated panic. -/
inductive ReconstructResult where
  | original
  | consolidated (obj : JsonObject) (meta : StreamingMetadata)
  | panicked

/-- `reconstructStreamResponse` (lines 14–30): parse the SSE body; no
chunks → the body unchanged and no metadata; otherwise consolidate. -/
def reconstructStreamResponse (parse : String → Option JsonObject) (elapsed : Int)
    (body : String) : ReconstructResult :=
  if (parseSSEChunks parse body).isEmpty then ReconstructResult.original
  else
    match reconstructOpenAIStream (parseSSEChunks parse body) elapsed with
    | some (obj, meta) => ReconstructResult.consolidated obj meta
    | none => ReconstructResult.panicked

/-! ## Claims C7 and C8 -/

theorem jsonLookup_foldl (k : String) :
    ∀ (l : JsonObject) (acc : Option JsonValue),
      l.foldl (fun a p => if p.1 = k then some p.2 else a) acc =
        match jsonLookup l k with
        | some v => some v
        | none => acc := by
  intro l
  induction l with
  | nil => intro acc; rfl
  | cons p t ih =>
      intro acc
      unfold jsonLookup
      simp only [List.foldl_cons]
      rw [ih, ih (if p.1 = k then some p.2 else none)]
      by_cases hp : p.1 = k
      · rw [if_pos hp, if_pos hp]
        cases jsonLookup t k <;> rfl
      · rw [if_neg hp, if_neg hp]
        cases jsonLookup t k <;> rfl

theorem jsonLookup_append (l1 l2 : JsonObject) (k : String) :
    jsonLookup (l1 ++ l2) k =
      match jsonLookup l2 k with
      | some v => some v
      | none => jsonLookup l1 k := by
  unfold jsonLookup
  rw [List.foldl_append]
  rw [jsonLookup_foldl k l2]
  rfl

/-- The trimmed `data: [DONE]` line produces no chunk, whatever the
decoder is. -/
theorem sseLine_done (parse : String → Option JsonObject) :
    sseLine parse (("data: [DONE]").data) = none := by
  unfold sseLine
  rw [if_pos (Or.inr (by decide))]

/-- Claim C7 (amended): `parseSSEChunks` splits on newlines and
processes *every* line — a `data: [DONE]` line is skipped, not
terminal, so the chunk lists before and after it concatenate; every
produced chunk comes from a trimmed `data: `-prefixed line (other than
`[DONE]`) whose payload decodes; and when no chunk is produced the
reconstructor returns the body unchanged with no metadata. -/
theorem C7_sse_parse_spec (parse : String → Option JsonObject) (a b : List Char)
    (body : String) (elapsed : Int) :
    parseSSEChunks parse (String.mk (a ++ '\n' :: (("data: [DONE]").data ++ '\n' :: b))) =
      parseSSEChunks parse (String.mk a) ++ parseSSEChunks parse (String.mk b) ∧
    (∀ c, c ∈ parseSSEChunks parse body →
      ∃ line, line ∈ splitNl body.data ∧
        goTrimSpace line ≠ ("data: [DONE]").data ∧
        (goTrimSpace line).take 6 = ("data: ").data ∧
        parse (String.mk ((goTrimSpace line).drop 6)) = some c) ∧
    (parseSSEChunks parse body = [] →
      reconstructStreamResponse parse elapsed body = ReconstructResult.original) := by
  refine ⟨?_, ?_, ?_⟩
  · show (splitNl (a ++ '\n' :: (("data: [DONE]").data ++ '\n' :: b))).filterMap
        (sseLine parse) = _
    rw [splitNl_append, splitNl_append]
    rw [List.filterMap_append, List.filterMap_append]
    have hdone : splitNl (("data: [DONE]").data) = [("data: [DONE]").data] := by decide
    rw [hdone]
    simp [sseLine_done parse, parseSSEChunks]
  · intro c hc
    unfold parseSSEChunks at hc
    rw [List.mem_filterMap] at hc
    obtain ⟨line, hl, hf⟩ := hc
    unfold sseLine at hf
    by_cases h1 : goTrimSpace line = [] ∨ goTrimSpace line = ("data: [DONE]").data
    · rw [if_pos h1] at hf
      exact absurd hf (by simp)
    · rw [if_neg h1] at hf
      by_cases h2 : (goTrimSpace line).take 6 = ("data: ").data
      · rw [if_pos h2] at hf
        exact ⟨line, hl, fun hd => h1 (Or.inr hd), h2, hf⟩
      · rw [if_neg h2] at hf
        exact absurd hf (by simp)
  · intro h
    unfold reconstructStreamResponse
    rw [h]
    rfl

/-- Claim C7 (counterexample to the claim as stated): a body whose
`data: [DONE]` line is followed by another data line yields *two*
chunks — the event after `[DONE]` still contributes — where the claimed
termination at `[DONE]` would yield one. -/
theorem C7_events_after_done_cex :
    (parseSSEChunks goUnmarshalObject
      "data: \x7b\x7d\ndata: [DONE]\ndata: \x7b\x7d").length = 2 := by
  decide

/-- `choices[0].message` of the reconstructed object. -/
def choicesMessage (obj : JsonObject) : JsonObject :=
  match asArr (jsonLookup obj "choices") with
  | some (JsonValue.obj ch :: _) =>
      (match asObj (jsonLookup ch "message") with
       | some m => m
       | none => [])
  | _ => []

theorem jsonLookup_metaCopy_choices (f : JsonObject) :
    jsonLookup (metaCopy f) "choices" = none := by
  unfold metaCopy jsonLookup
  repeat' split
  all_goals simp

/-- Claim C8 (amended): in a successfully consolidated stream, a
non-empty concatenated content always wins — `choices[0].message.content`
is the concatenation and any accumulated `tool_calls` are dropped; only
when the concatenated content is empty and tool calls were accumulated
is `content` null with the `tool_calls` array attached.  The metadata
counts the parsed events. -/
theorem C8_tool_calls_vs_content (chunks : List JsonObject) (elapsed : Int)
    (obj : JsonObject) (meta : StreamingMetadata) (acc : DeltaAcc)
    (hw : walkChunks initAcc chunks = some acc)
    (hr : reconstructOpenAIStream chunks elapsed = some (obj, meta)) :
    (acc.content ≠ "" →
      jsonLookup (choicesMessage obj) "content" = some (JsonValue.str acc.content) ∧
      jsonLookup (choicesMessage obj) "tool_calls" = none) ∧
    (acc.content = "" → acc.toolCalls ≠ [] →
      jsonLookup (choicesMessage obj) "content" = some JsonValue.null ∧
      jsonLookup (choicesMessage obj) "tool_calls" =
        some (JsonValue.arr acc.toolCalls)) ∧
    meta.chunksReceived = chunks.length := by
  cases chunks with
  | nil => exact absurd hr (by simp [reconstructOpenAIStream])
  | cons first rest =>
      unfold reconstructOpenAIStream at hr
      rw [hw] at hr
      simp only [Option.some.injEq, Prod.mk.injEq] at hr
      obtain ⟨hobj, hmeta⟩ := hr
      have hmsg : choicesMessage obj = buildMessage acc := by
        have hch : jsonLookup obj "choices" =
            some (JsonValue.arr [JsonValue.obj
              ([("index", JsonValue.num "0"),
                ("message", JsonValue.obj (buildMessage acc))] ++
               (if acc.finishReason ≠ "" then
                 [("finish_reason", JsonValue.str acc.finishReason)] else []))]) := by
          rw [← hobj]
          rw [jsonLookup_append]
          have hu : jsonLookup (match acc.usage with
              | some u => [("usage", JsonValue.obj u)]
              | none => []) "choices" = none := by
            cases acc.usage <;> simp [jsonLookup]
          rw [hu]
          rw [jsonLookup_append]
          simp [jsonLookup, jsonLookup_metaCopy_choices]
        unfold choicesMessage
        rw [hch]
        simp only [asArr]
        have hm : jsonLookup
            ([("index", JsonValue.num "0"),
              ("message", JsonValue.obj (buildMessage acc))] ++
             (if acc.finishReason ≠ "" then
               [("finish_reason", JsonValue.str acc.finishReason)] else [])) "message" =
            some (JsonValue.obj (buildMessage acc)) := by
          rw [jsonLookup_append]
          have : jsonLookup (if acc.finishReason ≠ "" then
              [("finish_reason", JsonValue.str acc.finishReason)] else []) "message" = none := by
            split <;> simp [jsonLookup]
          rw [this]
          simp [jsonLookup]
        rw [hm]
        simp [asObj]
      refine ⟨?_, ?_, ?_⟩
      · intro hc
        rw [hmsg]
        unfold buildMessage
        rw [if_pos hc]
        constructor
        · rw [jsonLookup_append]
          simp [jsonLookup]
        · rw [jsonLookup_append]
          have h2 : jsonLookup [("content", JsonValue.str acc.content)] "tool_calls" = none := by
            simp [jsonLookup]
          rw [h2]
          show jsonLookup (if acc.role ≠ "" then [("role", JsonValue.str acc.role)] else [])
            "tool_calls" = none
          split <;> simp [jsonLookup]
      · intro hc htc
        rw [hmsg]
        unfold buildMessage
        have hcontent : ¬acc.content ≠ "" := by simp [hc]
        have htc2 : acc.toolCalls.length > 0 := List.length_pos.mpr htc
        rw [if_neg hcontent, if_pos htc2]
        constructor
        · rw [jsonLookup_append]
          simp [jsonLookup]
        · rw [jsonLookup_append]
          simp [jsonLookup]
      · rw [← hmeta]

/-- A delta chunk carrying *both* a content string and a tool call. -/
def c8MixedChunk : JsonObject :=
  [("choices", JsonValue.arr [JsonValue.obj [("delta", JsonValue.obj
    [("content", JsonValue.str "hi"),
     ("tool_calls", JsonValue.arr [JsonValue.str "x"])])]])]

/-- A delta chunk carrying only a content string. -/
def c8ContentChunk : JsonObject :=
  [("choices", JsonValue.arr [JsonValue.obj [("delta", JsonValue.obj
    [("content", JsonValue.str "hello")])]])]

/-- The object consolidated from `c8ContentChunk`. -/
def c8obj : JsonObject :=
  [("choices", JsonValue.arr [JsonValue.obj
    [("index", JsonValue.num "0"),
     ("message", JsonValue.obj [("content", JsonValue.str "hello")])]])]

/-- The metadata consolidated from `c8ContentChunk`. -/
def c8meta : StreamingMetadata :=
  { chunksReceived := 1, reconstructedFromStream := true, firstChunkTime := 0,
    lastChunkTime := 0 }

/-- The accumulator the walk reaches on `c8ContentChunk`. -/
def c8acc : DeltaAcc :=
  { content := "hello", role := "", toolCalls := [], finishReason := "", usage := none }

/-- Claim C8 (counterexample to the claim as stated): an event whose
delta carries both content `"hi"` and a tool call consolidates to
`message.content = "hi"` — not null — and *no* `tool_calls` field. -/
theorem C8_content_overrides_toolcalls_cex :
    (reconstructOpenAIStream [c8MixedChunk] 0).map
        (fun r => (jsonLookup (choicesMessage r.1) "content",
                   jsonLookup (choicesMessage r.1) "tool_calls")) =
      some (some (JsonValue.str "hi"), none) := by
  rfl

/-- Claim C8 witness: a pure content stream consolidates with the
content string in `message.content`. -/
theorem C8_tool_calls_vs_content_witness :
    (c8acc.content ≠ "" →
      jsonLookup (choicesMessage c8obj) "content" = some (JsonValue.str c8acc.content) ∧
      jsonLookup (choicesMessage c8obj) "tool_calls" = none) ∧
    (c8acc.content = "" → c8acc.toolCalls ≠ [] →
      jsonLookup (choicesMessage c8obj) "content" = some JsonValue.null ∧
      jsonLookup (choicesMessage c8obj) "tool_calls" =
        some (JsonValue.arr c8acc.toolCalls)) ∧
    c8meta.chunksReceived = [c8ContentChunk].length :=
  C8_tool_calls_vs_content [c8ContentChunk] 0 c8obj c8meta c8acc rfl rfl

/-! ## Claim C9: masking of sensitive header values

`Handler.maskSensitiveValue` (proxy handler source lines 215–237).  Go
indexes the string by *bytes* (`value[7:]`, `token[:3]`,
`token[len(token)-4:]`), so the embedding works on byte lists. -/

/-- The value is `Bearer `- or `bearer `-prefixed (Go
`strings.HasPrefix`). -/
def bearerPrefixed (v : List Nat) : Prop :=
  v.take 7 = strBytes "Bearer " ∨ v.take 7 = strBytes "bearer "

instance (v : List Nat) : Decidable (bearerPrefixed v) := by
  unfold bearerPrefixed; infer_instance

/-- `Handler.maskSensitiveValue` on the value's bytes. -/
def maskSensitiveValue (v : List Nat) : List Nat :=
  if v.length = 0 then strBytes "[EMPTY]"
  else if bearerPrefixed v then
    if (v.drop 7).length ≤ 8 then strBytes "Bearer [REDACTED]"
    else
      strBytes "Bearer " ++ (v.drop 7).take 3 ++ strBytes "..." ++
        (v.drop 7).drop ((v.drop 7).length - 4)
  else if v.length ≤ 8 then strBytes "[REDACTED]"
  else v.take 3 ++ strBytes "..." ++ v.drop (v.length - 4)

/-- Two sensitive values fall into the same masking case and agree on
everything the mask may reveal: both empty; both Bearer-prefixed with
short (≤ 8 byte) tokens; both Bearer-prefixed with longer tokens whose
first 3 and last 4 bytes agree; both non-Bearer and short (1–8 bytes);
or both non-Bearer, longer, agreeing on the first 3 and last 4 bytes. -/
def SameMaskCase (v1 v2 : List Nat) : Prop :=
  (v1 = [] ∧ v2 = []) ∨
  (bearerPrefixed v1 ∧ bearerPrefixed v2 ∧
    (v1.drop 7).length ≤ 8 ∧ (v2.drop 7).length ≤ 8) ∨
  (bearerPrefixed v1 ∧ bearerPrefixed v2 ∧
    8 < (v1.drop 7).length ∧ 8 < (v2.drop 7).length ∧
    (v1.drop 7).take 3 = (v2.drop 7).take 3 ∧
    (v1.drop 7).drop ((v1.drop 7).length - 4) = (v2.drop 7).drop ((v2.drop 7).length - 4)) ∨
  (¬bearerPrefixed v1 ∧ ¬bearerPrefixed v2 ∧
    1 ≤ v1.length ∧ v1.length ≤ 8 ∧ 1 ≤ v2.length ∧ v2.length ≤ 8) ∨
  (¬bearerPrefixed v1 ∧ ¬bearerPrefixed v2 ∧ 8 < v1.length ∧ 8 < v2.length ∧
    v1.take 3 = v2.take 3 ∧ v1.drop (v1.length - 4) = v2.drop (v2.length - 4))

instance (v1 v2 : List Nat) : Decidable (SameMaskCase v1 v2) := by
  unfold SameMaskCase; infer_instance

theorem bearerPrefixed_length (v : List Nat) (h : bearerPrefixed v) : 7 ≤ v.length := by
  have h7a : (strBytes "Bearer ").length = 7 := by decide
  have h7b : (strBytes "bearer ").length = 7 := by decide
  rcases h with h | h
  · have := congrArg List.length h
    rw [List.length_take, h7a] at this
    omega
  · have := congrArg List.length h
    rw [List.length_take, h7b] at this
    omega

/-- Claim C9: the mask reveals at most the case and the first 3 / last
4 bytes — values agreeing on those mask identically, so no other byte
of the secret influences the audit log. -/
theorem C9_mask_noninterference (v1 v2 : List Nat) (h : SameMaskCase v1 v2) :
    maskSensitiveValue v1 = maskSensitiveValue v2 := by
  unfold maskSensitiveValue
  rcases h with ⟨h1, h2⟩ | ⟨hb1, hb2, hs1, hs2⟩ | ⟨hb1, hb2, hl1, hl2, ht, hd⟩ |
    ⟨hb1, hb2, hn1, hs1, hn2, hs2⟩ | ⟨hb1, hb2, hl1, hl2, ht, hd⟩
  · subst h1; subst h2; rfl
  · rw [if_neg (show ¬v1.length = 0 by have := bearerPrefixed_length v1 hb1; omega),
      if_neg (show ¬v2.length = 0 by have := bearerPrefixed_length v2 hb2; omega),
      if_pos hb1, if_pos hb2, if_pos hs1, if_pos hs2]
  · rw [if_neg (show ¬v1.length = 0 by have := bearerPrefixed_length v1 hb1; omega),
      if_neg (show ¬v2.length = 0 by have := bearerPrefixed_length v2 hb2; omega),
      if_pos hb1, if_pos hb2,
      if_neg (show ¬(v1.drop 7).length ≤ 8 by omega),
      if_neg (show ¬(v2.drop 7).length ≤ 8 by omega), ht, hd]
  · rw [if_neg (show ¬v1.length = 0 by omega), if_neg (show ¬v2.length = 0 by omega),
      if_neg hb1, if_neg hb2, if_pos hs1, if_pos hs2]
  · rw [if_neg (show ¬v1.length = 0 by omega), if_neg (show ¬v2.length = 0 by omega),
      if_neg hb1, if_neg hb2,
      if_neg (show ¬v1.length ≤ 8 by omega),
      if_neg (show ¬v2.length ≤ 8 by omega), ht, hd]

/-- Claim C9 witness: two Bearer tokens agreeing only on the token's
first 3 and last 4 bytes (one even differs in the prefix's case) mask
to the same stored value. -/
theorem C9_mask_noninterference_witness :
    SameMaskCase (strBytes "Bearer abcdefghiXYZ") (strBytes "bearer abcQQQQQiXYZ") ∧
    maskSensitiveValue (strBytes "Bearer abcdefghiXYZ") =
      maskSensitiveValue (strBytes "bearer abcQQQQQiXYZ") :=
  ⟨by decide,
   C9_mask_noninterference (strBytes "Bearer abcdefghiXYZ") (strBytes "bearer abcQQQQQiXYZ")
     (by decide)⟩

/-! ## Claim C10: media extraction disabled or empty body

`Extractor.ExtractFromBody` (internal/media extractor source, lines
490–494 for the guard).  The regex engine
(`base64ImagePattern.FindAllStringSubmatch`), the Base64 decoder and
the filesystem (`saveMedia`) are external collaborators, abstracted as
parameters; the function's own control flow — the guard and the
per-match loop — is embedded.  File writes are made observable as a
list of `(path, bytes)` pairs. -/

/-- One submatch of `base64ImagePattern`: the full `data:…` match, the
captured image type, the captured Base64 payload. -/
structure RegexMatch where
  fullMatch : String
  imageType : String
  base64Data : String

/-- `media.Extractor`. -/
structure Extractor where
  enabled : Bool
  minSizeKB : Int
  storagePath : String

/-- The loop state of `ExtractFromBody`: the body being rewritten, the
references, the file writes performed, the running index. -/
structure ExtractState where
  modifiedBody : String
  references : List MediaReference
  writes : List (String × List Nat)
  index : Nat

/-- One iteration of the match loop (lines 502–551): size gate, decode,
save (failures leave the match inline), hash of the original Base64
string, placeholder substitution of the first occurrence. -/
def extractStep (decode : String → Option (List Nat))
    (save : List Nat → Nat → String → Nat → String → Option String)
    (sequenceID : Nat) (bodyType : String) (e : Extractor)
    (st : ExtractState) (m : RegexMatch) : ExtractState :=
  if ((m.base64Data.length * 3 / 4 / 1024 : Nat) : Int) < e.minSizeKB then st
  else
    match decode m.base64Data with
    | none => st
    | some decoded =>
        match save decoded sequenceID bodyType st.index m.imageType with
        | none => st
        | some path =>
            { modifiedBody :=
                goReplaceOnce st.modifiedBody m.fullMatch
                  ("[IMAGE_EXTRACTED:" ++ toString st.index ++ "]"),
              references := st.references ++
                [{ type := "image/" ++ m.imageType, filePath := path,
                   sha256 := sha256Hex (strBytes m.base64Data),
                   sizeBytes := (decoded.length : Int),
                   placeholder := "[IMAGE_EXTRACTED:" ++ toString st.index ++ "]" }],
              writes := st.writes ++ [(path, decoded)],
              index := st.index + 1 }

/-- `Extractor.ExtractFromBody`: the early return guard, then the match
loop.  Returns the (possibly rewritten) body, the references, and the
file writes performed.  (The Go error return is always nil.) -/
def ExtractFromBody (findAll : String → List RegexMatch)
    (decode : String → Option (List Nat))
    (save : List Nat → Nat → String → Nat → String → Option String)
    (e : Extractor) (body : String) (sequenceID : Nat) (bodyType : String) :
    String × List MediaReference × List (String × List Nat) :=
  if ¬e.enabled ∨ body = "" then (body, [], [])
  else
    let fin := (findAll body).foldl (extractStep decode save sequenceID bodyType e)
      { modifiedBody := body, references := [], writes := [], index := 0 }
    (fin.modifiedBody, fin.references, fin.writes)

/-- Claim C10: with extraction disabled or an empty body,
`ExtractFromBody` is the identity on the body — no media references, no
error, and no file writes — whatever the regex engine, decoder and
filesystem do. -/
theorem C10_extract_identity_when_disabled_or_empty
    (findAll : String → List RegexMatch) (decode : String → Option (List Nat))
    (save : List Nat → Nat → String → Nat → String → Option String)
    (e : Extractor) (body : String) (sequenceID : Nat) (bodyType : String)
    (h : ¬e.enabled ∨ body = "") :
    ExtractFromBody findAll decode save e body sequenceID bodyType = (body, [], []) := by
  unfold ExtractFromBody
  rw [if_pos h]

/-- Claim C10 witness: a disabled extractor leaves a non-empty body (and
the filesystem) untouched. -/
theorem C10_extract_identity_witness :
    (¬(Extractor.mk false 10 "media").enabled ∨ "a body" = "") ∧
    ExtractFromBody (fun _ => []) (fun _ => none) (fun _ _ _ _ _ => none)
      (Extractor.mk false 10 "media") "a body" 0 "request" = ("a body", [], []) :=
  ⟨by decide,
   C10_extract_identity_when_disabled_or_empty (fun _ => []) (fun _ => none)
     (fun _ _ _ _ _ => none) (Extractor.mk false 10 "media") "a body" 0 "request"
     (by decide)⟩

end AIBlackbox
